import Mathlib

/-!
Verification of the stretchy-glyph variant resolver (`src/font/variants.rs`).

The development shallowly embeds the data model and the two entry points of
the module, `Variant::variant` (called `variant` below) and
`Variant::successor`, as pure Lean functions:

* Rust `f64` values are modelled as `ℚ` (all arithmetic performed by the
  source on them is exact on the integer-valued inputs it receives, plus a
  single division when slack is distributed).
* Rust `u16`/`u32` machine integers are modelled as `ℕ`; the only
  subtraction the source performs on them is `full_advance - overlap`,
  which is modelled by truncated `ℕ` subtraction and guarded in the
  general theorems by the well-formedness hypothesis
  `start_connector_length ≤ full_advance` (outside it the Rust debug build
  would abort before producing a value).
* Statements that abort the process (`panic!`, `.expect`, and the
  checked-arithmetic underflow of `instructions.len() - 1` on an empty
  instruction vector) are modelled by `Except.error` carrying a
  `RustPanic` tag.  An `Except.error` result therefore represents a crash
  of the whole process, not an error value the caller could receive.

The statics `VERT_VARIANTS`, `HORZ_VARIANTS`, the metrics provider
`glyph_metrics` and the constant `MIN_CONNECTOR_OVERLAP` are external
collaborators of the module (they are loaded from font tables elsewhere);
they are gathered in a `FontEnv` parameter.
-/

/-- Modelled from the spec: a glyph is an identity (codepoint) together
with its metrics, of which only the advance in the stretch direction is
relevant here.  The `Glyph` record itself is defined outside the
translated file (`super::Glyph`). -/
structure Glyph where
  unicode : ℕ
  advance : ℕ
deriving DecidableEq

/-- Source lines 23-27: an entry of the replacement ladder. -/
structure ReplacementGlyph where
  unicode : ℕ
  advance : ℕ
deriving DecidableEq

/-- Source lines 35-42: one piece of a glyph assembly. -/
structure GlyphPart where
  unicode : ℕ
  start_connector_length : ℕ
  end_connector_length : ℕ
  full_advance : ℕ
  required : Bool
deriving DecidableEq

/-- Source lines 29-33. -/
structure ConstructableGlyph where
  parts : List GlyphPart
  italics_correction : ℤ
deriving DecidableEq

/-- Source lines 7-11. -/
structure GlyphVariants where
  replacements : List ReplacementGlyph
  constructable : Option ConstructableGlyph
deriving DecidableEq

/-- Source lines 44-48: a resolved drawing step; `overlap` is an `f64`,
modelled as `ℚ`. -/
structure GlyphInstruction where
  glyph : Glyph
  overlap : ℚ
deriving DecidableEq

/-- Source lines 63-67. -/
inductive Direction
  | Vertical
  | Horizontal
deriving DecidableEq

/-- Source lines 17-21. -/
inductive VariantGlyph
  | Replacement (g : Glyph)
  | Constructable (d : Direction) (instructions : List GlyphInstruction)
deriving DecidableEq

/-- Tags for the three ways the source can abort the process on the
`variant` path: the `panic!` at line 134, the `.expect` at line 101, and
the unsigned underflow of `instructions.len() - 1` at line 173 when the
instruction vector is empty (checked-arithmetic semantics). -/
inductive RustPanic
  | unableToConstruct
  | missingLastReplacement
  | subtractOverflow
deriving DecidableEq

/-- External collaborators of the module: the two direction-keyed variant
tables, the metrics provider, and the `MIN_CONNECTOR_OVERLAP` constant. -/
structure FontEnv where
  vertVariants : ℕ → Option GlyphVariants
  horzVariants : ℕ → Option GlyphVariants
  glyphMetrics : ℕ → Glyph
  minConnectorOverlap : ℕ

/-- Inner repeat loop of `advance_with_glyphs` (source lines 117-123),
iterated `n` times on the state `(advance, previous_connector)`. -/
def advancePart (cap : ℕ) (p : GlyphPart) : ℕ → ℕ × ℕ → ℕ × ℕ
  | 0, st => st
  | n + 1, (adv, prev) =>
    advancePart cap p n
      (adv + (p.full_advance - min cap (min prev p.start_connector_length)),
       p.end_connector_length)

/-- Source lines 110-127: maximum advance of a construction with a given
number of repeats; required parts appear once, the others `repeats`
times.  The source casts the accumulated `u32` to `f64` on return; the
cast to `ℚ` is written at the call sites. -/
def advance_with_glyphs (cap : ℕ) (parts : List GlyphPart) (repeats : ℕ) : ℕ :=
  (parts.foldl
    (fun st p => advancePart cap p (if p.required then 1 else repeats) st)
    (0, 0)).1

/-- Source lines 131-135: the repeat-count search.  The Rust loop keeps a
counter starting at 0 and aborts the process once the counter exceeds 10;
`fuel` is the number of further increments still allowed, so the loop
starting at count 0 has fuel 10, and `none` models the `panic!`. -/
def repeatSearchGo (cap : ℕ) (parts : List GlyphPart) (size : ℚ) : ℕ → ℕ → Option ℕ
  | c, fuel =>
    if (advance_with_glyphs cap parts c : ℚ) < size then
      match fuel with
      | 0 => none
      | fuel + 1 => repeatSearchGo cap parts size (c + 1) fuel
    else some c

/-- The repeat-count search as run by `variant`: count from 0, at most 10
increments. -/
def repeatSearch (cap : ℕ) (parts : List GlyphPart) (size : ℚ) : Option ℕ :=
  repeatSearchGo cap parts size 0 10

/-- Inner repeat loop of the instruction materialization (source lines
149-159), iterated `n` times on `(instructions, previous_connector,
glyph_advance)`.  Note the source computes the overlap here as
`min(previous_connector, start_connector_length)` with no
`MIN_CONNECTOR_OVERLAP` cap, unlike the search. -/
def materializePart (env : FontEnv) (p : GlyphPart) :
    ℕ → List GlyphInstruction × ℕ × ℚ → List GlyphInstruction × ℕ × ℚ
  | 0, st => st
  | n + 1, (instrs, prev, adv) =>
    materializePart env p n
      (instrs ++ [{ glyph := env.glyphMetrics p.unicode,
                    overlap := (min prev p.start_connector_length : ℕ) }],
       p.end_connector_length,
       adv + (p.full_advance : ℚ) - (min prev p.start_connector_length : ℕ))

/-- Source lines 142-160: materialize one `GlyphInstruction` per part
instance, accumulating the total advance. -/
def materialize (env : FontEnv) (parts : List GlyphPart) (count : ℕ) :
    List GlyphInstruction × ℕ × ℚ :=
  parts.foldl
    (fun st p => materializePart env p (if p.required then 1 else count) st)
    ([], 0, 0)

/-- Source lines 174-176: subtract the distributed slack from the overlap
of every instruction except the first. -/
def distributeSlack (ov : ℚ) : List GlyphInstruction → List GlyphInstruction
  | [] => []
  | first :: rest => first :: rest.map (fun gi => { gi with overlap := gi.overlap - ov })

/-- Source lines 75-77: the direction-keyed table lookup. -/
def lookupVariants (env : FontEnv) (direction : Direction) (u : ℕ) : Option GlyphVariants :=
  match direction with
  | Direction.Vertical => env.vertVariants u
  | Direction.Horizontal => env.horzVariants u

/-- Source lines 70-179: `Variant::variant for Glyph`.  Process aborts are
modelled as `Except.error`.  The division at line 173 divides by the
unsigned `instructions.len() - 1`: a length of 0 underflows that
subtraction (a checked-arithmetic abort, modelled as
`RustPanic.subtractOverflow`); a length of 1 gives the harmless `f64`
division by zero of the source, whose result is applied to no
instruction, and which the `ℚ` model renders as division by zero with
the same observable outcome (the instruction list is unchanged). -/
def variant (env : FontEnv) (g : Glyph) (size : ℚ) (direction : Direction) :
    Except RustPanic VariantGlyph :=
  match lookupVariants env direction g.unicode with
  | none => Except.ok (VariantGlyph.Replacement g)
  | some variants =>
    match variants.replacements.find? (fun r => decide (size ≤ (r.advance : ℚ))) with
    | some r => Except.ok (VariantGlyph.Replacement (env.glyphMetrics r.unicode))
    | none =>
      match variants.constructable with
      | none =>
        match variants.replacements.getLast? with
        | none => Except.error RustPanic.missingLastReplacement
        | some last => Except.ok (VariantGlyph.Replacement (env.glyphMetrics last.unicode))
      | some c =>
        match repeatSearch env.minConnectorOverlap c.parts size with
        | none => Except.error RustPanic.unableToConstruct
        | some count =>
          let m := materialize env c.parts count
          let size_difference := size - m.2.2
          if size_difference < 0 then
            Except.ok (VariantGlyph.Constructable direction m.1)
          else if m.1.length = 0 then
            Except.error RustPanic.subtractOverflow
          else
            Except.ok (VariantGlyph.Constructable direction
              (distributeSlack (size_difference / ((m.1.length - 1 : ℕ) : ℚ)) m.1))

/-- Source lines 185-198: `Variant::successor for Glyph`. -/
def successor (env : FontEnv) (g : Glyph) : Glyph :=
  match env.vertVariants g.unicode with
  | none => g
  | some variants =>
    match variants.replacements[1]? with
    | some r => env.glyphMetrics r.unicode
    | none => g

/-- Sum of `instruction.glyph.advance - instruction.overlap` over an
instruction list (the assembled advance of a returned construction). -/
def sumAdv (l : List GlyphInstruction) : ℚ :=
  (l.map (fun gi => (gi.glyph.advance : ℚ) - gi.overlap)).sum

/-- The instruction list `variant` returns on the construction path when
the slack is non-negative: the materialized instructions with the slack
distributed over all instructions but the first. -/
def slackAdjusted (env : FontEnv) (parts : List GlyphPart) (size : ℚ) (n : ℕ) :
    List GlyphInstruction :=
  distributeSlack
    ((size - (materialize env parts n).2.2) /
      (((materialize env parts n).1.length - 1 : ℕ) : ℚ))
    (materialize env parts n).1

/-- Follows the words of the spec (claim C2) rather than the source: the
inner repeat loop of the assembled advance where each instance is reduced
by the lesser of the previous end-connector length and the overlap cap,
with no reference to the part's own start-connector length. -/
def specAdvancePart (cap : ℕ) (p : GlyphPart) : ℕ → ℕ × ℕ → ℕ × ℕ
  | 0, st => st
  | n + 1, (adv, prev) =>
    specAdvancePart cap p n
      (adv + (p.full_advance - min prev cap), p.end_connector_length)

/-- Follows the words of the spec (claim C2): assembled advance with
`repeats` extender repetitions, each instance after the first reduced by
the lesser of the previous end-connector length and the overlap cap. -/
def specAssembledAdvance (cap : ℕ) (parts : List GlyphPart) (repeats : ℕ) : ℕ :=
  (parts.foldl
    (fun st p => specAdvancePart cap p (if p.required then 1 else repeats) st)
    (0, 0)).1

/-! ### Concrete environments used by the closed theorems -/

/-- Recipe with a single extender of advance 1: even 10 repeats reach only
advance 10. -/
def c1Parts : List GlyphPart :=
  [{ unicode := 300, start_connector_length := 0, end_connector_length := 0,
     full_advance := 1, required := false }]

def c1Env : FontEnv where
  vertVariants := fun u =>
    if u = 1 then
      some { replacements := [],
             constructable := some { parts := c1Parts, italics_correction := 0 } }
    else none
  horzVariants := fun _ => none
  glyphMetrics := fun u => { unicode := u, advance := 0 }
  minConnectorOverlap := 20

/-- Metadata with an empty replacement ladder and no recipe. -/
def c5Env : FontEnv where
  vertVariants := fun u =>
    if u = 1 then some { replacements := [], constructable := none } else none
  horzVariants := fun _ => none
  glyphMetrics := fun u => { unicode := u, advance := 0 }
  minConnectorOverlap := 20

/-- Recipe containing only a non-required extender part. -/
def c10Parts : List GlyphPart :=
  [{ unicode := 300, start_connector_length := 0, end_connector_length := 0,
     full_advance := 1, required := false }]

def c10Env : FontEnv where
  vertVariants := fun u =>
    if u = 1 then
      some { replacements := [],
             constructable := some { parts := c10Parts, italics_correction := 0 } }
    else none
  horzVariants := fun _ => none
  glyphMetrics := fun u => { unicode := u, advance := 0 }
  minConnectorOverlap := 20

/-! ### Error-handling claims settled by direct evaluation -/

/-- C1: on a constructable recipe whose advance stays below `min_size`
even at the repeat ceiling, the source executes
`panic!("Unable to construct large glyph.")` (line 134), aborting the
process; the resolver does not surface a failure result to the caller.
The theorem evaluates the embedding at such an input: the search is
exhausted and the run ends in the modelled process abort. -/
theorem C1_ceiling_panic :
    repeatSearch c1Env.minConnectorOverlap c1Parts 100 = none
    ∧ variant c1Env { unicode := 1, advance := 5 } 100 Direction.Vertical
        = Except.error RustPanic.unableToConstruct :=
  ⟨rfl, rfl⟩

/-- C5: on metadata whose replacement ladder is empty and which carries no
constructable recipe, the source executes
`.expect("Unable to obtain last replacement glyph. ...")` (line 101),
aborting the process; no malformed-data failure result reaches the
caller.  The theorem evaluates the embedding at such an input. -/
theorem C5_empty_replacements_panic :
    c5Env.vertVariants 1 = some { replacements := [], constructable := none }
    ∧ variant c5Env { unicode := 1, advance := 5 } 5 Direction.Vertical
        = Except.error RustPanic.missingLastReplacement :=
  ⟨rfl, rfl⟩

/-- C10: with a recipe made only of non-required extender parts and
`min_size = 0`, the repeat search succeeds with 0 repeats, the
materialized instruction list is empty, and `instructions.len() - 1`
underflows the unsigned subtraction at line 173, so `variant` aborts
(under checked arithmetic) instead of returning a `VariantGlyph`. -/
theorem C10_length_underflow :
    repeatSearch c10Env.minConnectorOverlap c10Parts 0 = some 0
    ∧ (materialize c10Env c10Parts 0).1 = []
    ∧ variant c10Env { unicode := 1, advance := 5 } 0 Direction.Vertical
        = Except.error RustPanic.subtractOverflow := by
  refine ⟨rfl, rfl, ?_⟩
  show (if (0 : ℚ) - (materialize c10Env c10Parts 0).2.2 < 0 then _ else _) = _
  norm_num [materialize, materializePart, c10Parts]

/-! ### Successor claims -/

/-- C8: `successor` consults only the vertical variant mapping (it is
invariant under arbitrary changes to the horizontal table and to the
overlap cap); with no vertical metadata it returns the glyph unchanged,
and with metadata it returns the metrics of the second replacement entry
when present, else the glyph unchanged.  It takes no `min_size` and the
construction data (`constructable`) never influences it. -/
theorem C8_successor_vertical_only (env env2 : FontEnv) (g : Glyph)
    (hvert : env2.vertVariants = env.vertVariants)
    (hmet : env2.glyphMetrics = env.glyphMetrics) :
    successor env2 g = successor env g
    ∧ (env.vertVariants g.unicode = none → successor env g = g)
    ∧ (∀ v, env.vertVariants g.unicode = some v →
        successor env g
          = Option.elim v.replacements[1]? g (fun r => env.glyphMetrics r.unicode)) := by
  refine ⟨?_, ?_, ?_⟩
  · simp only [successor, hvert, hmet]
  · intro h
    simp only [successor, h]
  · intro v hv
    simp only [successor, hv]
    cases v.replacements[1]? <;> simp [Option.elim]

def c8Env : FontEnv where
  vertVariants := fun u =>
    if u = 1 then
      some { replacements := [{ unicode := 1, advance := 10 },
                              { unicode := 2, advance := 20 },
                              { unicode := 3, advance := 30 }],
             constructable := none }
    else none
  horzVariants := fun u => some { replacements := [{ unicode := u, advance := 1 }],
                                  constructable := none }
  glyphMetrics := fun u => { unicode := u, advance := 10 * u }
  minConnectorOverlap := 20

def c8Env2 : FontEnv where
  vertVariants := c8Env.vertVariants
  horzVariants := fun _ => none
  glyphMetrics := c8Env.glyphMetrics
  minConnectorOverlap := 7

theorem C8_successor_vertical_only_witness :
    successor c8Env2 { unicode := 1, advance := 10 }
      = successor c8Env { unicode := 1, advance := 10 }
    ∧ successor c8Env { unicode := 1, advance := 10 } = { unicode := 2, advance := 20 } :=
  ⟨(C8_successor_vertical_only c8Env c8Env2 { unicode := 1, advance := 10 } rfl rfl).1,
   rfl⟩

def c9V : GlyphVariants :=
  { replacements := [{ unicode := 1, advance := 10 }, { unicode := 2, advance := 20 }],
    constructable := none }

def c9V2 : GlyphVariants :=
  { replacements := [{ unicode := 2, advance := 20 }, { unicode := 3, advance := 30 }],
    constructable := none }

/-- Font in which the second ladder entry of glyph 1 (glyph 2) has a
two-entry ladder of its own. -/
def c9Env : FontEnv where
  vertVariants := fun u => if u = 1 then some c9V else if u = 2 then some c9V2 else none
  horzVariants := fun _ => none
  glyphMetrics := fun u => { unicode := u, advance := 10 * u }
  minConnectorOverlap := 20

/-- C9 fails as stated: glyph 1 has a vertical ladder of exactly 2
entries, yet applying `successor` twice walks into the ladder of the
successor glyph itself and returns a third, larger glyph, so the double
application differs from the single one. -/
theorem C9_counterexample :
    c9Env.vertVariants 1 = some c9V
    ∧ c9V.replacements.length = 2
    ∧ successor c9Env (successor c9Env { unicode := 1, advance := 10 })
        ≠ successor c9Env { unicode := 1, advance := 10 } := by
  refine ⟨rfl, rfl, ?_⟩
  decide

/-- C9 (amended): a glyph with no vertical metadata or with fewer than 2
replacement entries is returned unchanged by `successor`; and for a glyph
whose ladder has exactly 2 entries, applying `successor` twice equals
applying it once provided the successor glyph itself has no vertical
metadata or a ladder with fewer than 2 entries (without that proviso the
code walks further up, as the counterexample shows). -/
theorem C9_successor_ceiling (env : FontEnv) (g : Glyph) :
    (env.vertVariants g.unicode = none → successor env g = g)
    ∧ (∀ v, env.vertVariants g.unicode = some v → v.replacements.length < 2 →
        successor env g = g)
    ∧ (∀ v, env.vertVariants g.unicode = some v → v.replacements.length = 2 →
        (env.vertVariants (successor env g).unicode = none
          ∨ ∀ v2, env.vertVariants (successor env g).unicode = some v2 →
              v2.replacements.length < 2) →
        successor env (successor env g) = successor env g) := by
  have hfix : ∀ h : Glyph,
      (env.vertVariants h.unicode = none
        ∨ ∀ v2, env.vertVariants h.unicode = some v2 → v2.replacements.length < 2) →
      successor env h = h := by
    intro h hc
    rcases hc with hc | hc
    · simp only [successor, hc]
    · cases hv2 : env.vertVariants h.unicode with
      | none => simp only [successor, hv2]
      | some v2 =>
        have h1 : v2.replacements[1]? = none := by
          refine List.getElem?_eq_none ?_
          have := hc v2 hv2
          omega
        simp only [successor, hv2, h1]
  refine ⟨fun h => hfix g (Or.inl h), ?_, ?_⟩
  · intro v hv hlen
    refine hfix g (Or.inr ?_)
    intro v2 hv2
    rw [hv] at hv2
    cases hv2
    exact hlen
  · intro v hv hlen hcond
    exact hfix (successor env g) hcond

def c9wV : GlyphVariants :=
  { replacements := [{ unicode := 1, advance := 10 }, { unicode := 2, advance := 20 }],
    constructable := none }

/-- Font in which glyph 1 has a two-entry ladder and its successor,
glyph 2, has no vertical metadata. -/
def c9wEnv : FontEnv where
  vertVariants := fun u => if u = 1 then some c9wV else none
  horzVariants := fun _ => none
  glyphMetrics := fun u => { unicode := u, advance := 10 * u }
  minConnectorOverlap := 20

theorem C9_successor_ceiling_witness :
    successor c9wEnv (successor c9wEnv { unicode := 1, advance := 10 })
      = successor c9wEnv { unicode := 1, advance := 10 } :=
  (C9_successor_ceiling c9wEnv { unicode := 1, advance := 10 }).2.2 c9wV rfl rfl
    (Or.inl rfl)

/-! ### Replacement-ladder claims -/

/-- Helper: if the element at index `i` satisfies the predicate and every
earlier element fails it, then the list scan stops exactly at index `i`. -/
theorem find_first {α : Type} (p : α → Bool) (l : List α) :
    ∀ (i : ℕ) (hi : i < l.length),
      p (l.get ⟨i, hi⟩) = true →
      (∀ j (hj : j < i), p (l.get ⟨j, Nat.lt_trans hj hi⟩) = false) →
      l.find? p = some (l.get ⟨i, hi⟩) := by
  induction l with
  | nil => intro i hi; simp at hi
  | cons a t ih =>
    intro i hi hbig hsmall
    cases i with
    | zero =>
      have hba : p a = true := hbig
      rw [List.find?_cons_of_pos _ hba]
      rfl
    | succ k =>
      have ha : p a = false := hsmall 0 (Nat.succ_pos k)
      rw [List.find?_cons_of_neg _ (by simp [ha])]
      exact ih k (Nat.lt_of_succ_lt_succ hi) hbig
        (fun j hj => hsmall (j + 1) (Nat.succ_lt_succ hj))

/-- C6: with variant metadata present, `variant` returns
`Replacement (glyph_metrics r.unicode)` for the first ladder entry `r`
whose advance meets `min_size`; and when no entry is large enough and no
recipe exists, it returns the metrics of the last ladder entry. -/
theorem C6_replacement_ladder (env : FontEnv) (g : Glyph) (size : ℚ)
    (direction : Direction) (v : GlyphVariants)
    (hv : lookupVariants env direction g.unicode = some v) :
    (∀ i (hi : i < v.replacements.length),
      size ≤ ((v.replacements.get ⟨i, hi⟩).advance : ℚ) →
      (∀ j (hj : j < i), ((v.replacements.get ⟨j, Nat.lt_trans hj hi⟩).advance : ℚ) < size) →
      variant env g size direction
        = Except.ok (VariantGlyph.Replacement
            (env.glyphMetrics (v.replacements.get ⟨i, hi⟩).unicode)))
    ∧ ((∀ r ∈ v.replacements, (r.advance : ℚ) < size) →
      v.constructable = none →
      ∀ last, v.replacements.getLast? = some last →
      variant env g size direction
        = Except.ok (VariantGlyph.Replacement (env.glyphMetrics last.unicode))) := by
  constructor
  · intro i hi hbig hsmall
    have hfind : v.replacements.find? (fun r => decide (size ≤ (r.advance : ℚ)))
        = some (v.replacements.get ⟨i, hi⟩) := by
      refine find_first _ _ i hi ?_ ?_
      · exact decide_eq_true hbig
      · intro j hj
        exact decide_eq_false (not_le.mpr (hsmall j hj))
    simp only [variant, hv, hfind]
  · intro hall hc last hlast
    have hfind : v.replacements.find? (fun r => decide (size ≤ (r.advance : ℚ))) = none := by
      rw [List.find?_eq_none]
      intro x hx
      simpa using not_le.mpr (hall x hx)
    simp only [variant, hv, hfind, hc, hlast]

/-- Spec §8.2 ladder example: entries of advance 100, 200, 300. -/
def c6V : GlyphVariants :=
  { replacements := [{ unicode := 161, advance := 100 },
                     { unicode := 178, advance := 200 },
                     { unicode := 195, advance := 300 }],
    constructable := none }

def c6Env : FontEnv where
  vertVariants := fun u => if u = 1 then some c6V else none
  horzVariants := fun _ => none
  glyphMetrics := fun u => { unicode := u, advance := 0 }
  minConnectorOverlap := 20

theorem C6_replacement_ladder_witness :
    variant c6Env { unicode := 1, advance := 0 } 150 Direction.Vertical
      = Except.ok (VariantGlyph.Replacement (c6Env.glyphMetrics 178)) := by
  have hlen : 1 < c6V.replacements.length := by decide
  have hbig : (150 : ℚ) ≤ ((c6V.replacements.get ⟨1, hlen⟩).advance : ℚ) := by
    show (150 : ℚ) ≤ ((200 : ℕ) : ℚ)
    decide
  have hsmall : ∀ j (hj : j < 1),
      ((c6V.replacements.get ⟨j, Nat.lt_trans hj hlen⟩).advance : ℚ) < 150 := by
    intro j hj
    have hj0 : j = 0 := Nat.lt_one_iff.mp hj
    subst hj0
    show ((100 : ℕ) : ℚ) < 150
    decide
  exact (C6_replacement_ladder c6Env { unicode := 1, advance := 0 } 150
      Direction.Vertical c6V rfl).1 1 hlen hbig hsmall

/-! ### Repeat-count search claims -/

/-- Helper: a successful search result is the first count, at or after the
starting count, whose advance meets the target. -/
theorem repeatSearchGo_minimal (cap : ℕ) (parts : List GlyphPart) (size : ℚ) :
    ∀ (fuel c n : ℕ), repeatSearchGo cap parts size c fuel = some n →
      c ≤ n ∧ size ≤ (advance_with_glyphs cap parts n : ℚ)
        ∧ ∀ m, c ≤ m → m < n → (advance_with_glyphs cap parts m : ℚ) < size := by
  intro fuel
  induction fuel with
  | zero =>
    intro c n h
    rw [repeatSearchGo] at h
    by_cases hA : (advance_with_glyphs cap parts c : ℚ) < size
    · simp [hA] at h
    · rw [if_neg hA] at h
      cases h
      exact ⟨Nat.le_refl c, not_lt.mp hA, fun m hcm hmn => absurd hmn (by omega)⟩
  | succ fuel ih =>
    intro c n h
    rw [repeatSearchGo] at h
    by_cases hA : (advance_with_glyphs cap parts c : ℚ) < size
    · rw [if_pos hA] at h
      have h2 : repeatSearchGo cap parts size (c + 1) fuel = some n := h
      obtain ⟨hcn, hn, hmin⟩ := ih (c + 1) n h2
      refine ⟨Nat.le_of_succ_le hcn, hn, ?_⟩
      intro m hcm hmn
      rcases Nat.eq_or_lt_of_le hcm with heq | hlt
      · exact heq ▸ hA
      · exact hmin m hlt hmn
    · rw [if_neg hA] at h
      cases h
      exact ⟨Nat.le_refl c, not_lt.mp hA, fun m hcm hmn => absurd hmn (by omega)⟩

/-- C2 (amended): when the repeat-count search succeeds with count `n`,
`n` is the minimal non-negative repeat count whose assembled advance — as
the code computes it, reducing each instance by the lesser of the overlap
cap and the lesser of the previous end-connector length and the part's
own start-connector length — reaches `min_size`.  (The claim's formula
omits the start-connector term; the counterexample shows the difference
is observable.) -/
theorem C2_minimal_repeats (cap : ℕ) (parts : List GlyphPart) (size : ℚ) (n : ℕ)
    (h : repeatSearch cap parts size = some n) :
    size ≤ (advance_with_glyphs cap parts n : ℚ)
    ∧ ∀ m, m < n → (advance_with_glyphs cap parts m : ℚ) < size := by
  obtain ⟨-, h2, h3⟩ := repeatSearchGo_minimal cap parts size 10 0 n h
  exact ⟨h2, fun m hm => h3 m (Nat.zero_le m) hm⟩

/-- Recipe whose extender has a zero start connector after a cap-exceeding
end connector: the code reduction (through the start connector) is 0 per
extender instance while the formula of the claim would subtract the
overlap cap. -/
def c2Parts : List GlyphPart :=
  [{ unicode := 200, start_connector_length := 0, end_connector_length := 50,
     full_advance := 100, required := true },
   { unicode := 201, start_connector_length := 0, end_connector_length := 50,
     full_advance := 50, required := false }]

def c2Env : FontEnv where
  vertVariants := fun u =>
    if u = 1 then
      some { replacements := [],
             constructable := some { parts := c2Parts, italics_correction := 0 } }
    else none
  horzVariants := fun _ => none
  glyphMetrics := fun u => { unicode := u, advance := 0 }
  minConnectorOverlap := 20

/-- C2 fails as stated: at `min_size = 140` the code settles on 1 repeat
(two instructions), but under the claim's assembled-advance formula
(reduction = min(previous end connector, cap), ignoring the start
connector) one repeat yields only 130 < 140 while two repeats are needed,
so the count used is not the claimed minimal one. -/
theorem C2_counterexample :
    repeatSearch c2Env.minConnectorOverlap c2Parts 140 = some 1
    ∧ variant c2Env { unicode := 1, advance := 5 } 140 Direction.Vertical
        = Except.ok (VariantGlyph.Constructable Direction.Vertical
            [{ glyph := { unicode := 200, advance := 0 }, overlap := 0 },
             { glyph := { unicode := 201, advance := 0 }, overlap := 0 }])
    ∧ (specAssembledAdvance 20 c2Parts 1 : ℚ) < 140
    ∧ 140 ≤ (specAssembledAdvance 20 c2Parts 2 : ℚ) := by
  refine ⟨rfl, ?_, by decide, by decide⟩
  show (if (140 : ℚ) - (materialize c2Env c2Parts 1).2.2 < 0 then _ else _) = _
  norm_num [materialize, materializePart, c2Parts, c2Env]

/-- Spec §8.3 recipe: top cap, repeatable middle, bottom cap, connectors
20, overlap cap 20. -/
def c2wParts : List GlyphPart :=
  [{ unicode := 210, start_connector_length := 0, end_connector_length := 20,
     full_advance := 100, required := true },
   { unicode := 211, start_connector_length := 20, end_connector_length := 20,
     full_advance := 50, required := false },
   { unicode := 212, start_connector_length := 20, end_connector_length := 0,
     full_advance := 100, required := true }]

theorem C2_minimal_repeats_witness :
    190 ≤ (advance_with_glyphs 20 c2wParts 1 : ℚ)
    ∧ (advance_with_glyphs 20 c2wParts 0 : ℚ) < 190 := by
  have h := C2_minimal_repeats 20 c2wParts 190 1 (by decide)
  exact ⟨h.1, h.2 0 (by decide)⟩

/-! ### Single-instruction slack claim -/

/-- C7: when the construction path yields exactly one instruction and the
slack is non-negative, `variant` returns that single instruction with its
overlap unchanged and no error: the slack distribution touches only
instructions after the first and there are none.  (In the source the
f64 division by `len - 1 = 0` still happens; its result is applied to no
instruction, so it is observationally a no-op, modelled here exactly.) -/
theorem C7_single_instruction (env : FontEnv) (g : Glyph) (size : ℚ)
    (direction : Direction) (v : GlyphVariants) (c : ConstructableGlyph) (n : ℕ)
    (gi : GlyphInstruction)
    (hv : lookupVariants env direction g.unicode = some v)
    (hfind : v.replacements.find? (fun r => decide (size ≤ (r.advance : ℚ))) = none)
    (hc : v.constructable = some c)
    (hsearch : repeatSearch env.minConnectorOverlap c.parts size = some n)
    (hone : (materialize env c.parts n).1 = [gi])
    (hslack : 0 ≤ size - (materialize env c.parts n).2.2) :
    variant env g size direction
      = Except.ok (VariantGlyph.Constructable direction [gi]) := by
  simp only [variant, hv, hfind, hc, hsearch]
  rw [if_neg (not_lt.mpr hslack), hone]
  simp [distributeSlack]

def c7Parts : List GlyphPart :=
  [{ unicode := 400, start_connector_length := 0, end_connector_length := 0,
     full_advance := 100, required := true }]

def c7Env : FontEnv where
  vertVariants := fun u =>
    if u = 1 then
      some { replacements := [],
             constructable := some { parts := c7Parts, italics_correction := 0 } }
    else none
  horzVariants := fun _ => none
  glyphMetrics := fun u => { unicode := u, advance := 100 }
  minConnectorOverlap := 20

theorem C7_single_instruction_witness :
    variant c7Env { unicode := 1, advance := 5 } 100 Direction.Vertical
      = Except.ok (VariantGlyph.Constructable Direction.Vertical
          [{ glyph := { unicode := 400, advance := 100 }, overlap := 0 }]) := by
  refine C7_single_instruction c7Env { unicode := 1, advance := 5 } 100 Direction.Vertical
    { replacements := [],
      constructable := some { parts := c7Parts, italics_correction := 0 } }
    { parts := c7Parts, italics_correction := 0 } 0
    { glyph := { unicode := 400, advance := 100 }, overlap := 0 }
    rfl rfl rfl (by decide) ?_ ?_
  · norm_num [materialize, materializePart, c7Parts, c7Env]
  · norm_num [materialize, materializePart, c7Parts, c7Env]

/-! ### Exact-fit claim -/

/-- Helper: one materialization step adds `full_advance - overlap` both to
the accumulated advance and to the advance sum of the instruction list,
provided the metrics provider agrees with the part's `full_advance`. -/
theorem materializePart_sumAdv (env : FontEnv) (p : GlyphPart)
    (hp : ((env.glyphMetrics p.unicode).advance : ℚ) = (p.full_advance : ℚ)) :
    ∀ (n : ℕ) (st : List GlyphInstruction × ℕ × ℚ),
      sumAdv st.1 = st.2.2 →
      sumAdv (materializePart env p n st).1 = (materializePart env p n st).2.2 := by
  intro n
  induction n with
  | zero => intro st h; exact h
  | succ k ih =>
    intro st h
    obtain ⟨instrs, prev, adv⟩ := st
    simp only [materializePart]
    refine ih _ ?_
    simp only [sumAdv, List.map_append, List.map_cons, List.map_nil, List.sum_append,
      List.sum_cons, List.sum_nil, add_zero] at h ⊢
    rw [h, hp]
    ring

/-- Helper: the materialization fold preserves the advance-sum invariant. -/
theorem materialize_fold_sumAdv (env : FontEnv) (count : ℕ) :
    ∀ (parts : List GlyphPart) (st : List GlyphInstruction × ℕ × ℚ),
      (∀ p ∈ parts, ((env.glyphMetrics p.unicode).advance : ℚ) = (p.full_advance : ℚ)) →
      sumAdv st.1 = st.2.2 →
      sumAdv ((parts.foldl
          (fun st p => materializePart env p (if p.required then 1 else count) st) st)).1
        = ((parts.foldl
          (fun st p => materializePart env p (if p.required then 1 else count) st) st)).2.2 := by
  intro parts
  induction parts with
  | nil => intro st _ h; exact h
  | cons p t ih =>
    intro st hmet h
    simp only [List.foldl_cons]
    exact ih _ (fun q hq => hmet q (List.mem_cons_of_mem p hq))
      (materializePart_sumAdv env p (hmet p (List.mem_cons_self p t)) _ _ h)

/-- Helper: the accumulated advance of `materialize` equals the advance
sum of the instructions it emits, when the metrics provider is consistent
with the recipe. -/
theorem materialize_sumAdv (env : FontEnv) (parts : List GlyphPart) (count : ℕ)
    (hmet : ∀ p ∈ parts, ((env.glyphMetrics p.unicode).advance : ℚ) = (p.full_advance : ℚ)) :
    sumAdv (materialize env parts count).1 = (materialize env parts count).2.2 :=
  materialize_fold_sumAdv env count parts ([], 0, 0) hmet (by simp [sumAdv])

/-- Helper: reducing every overlap of a list by `ov` increases its
advance sum by `length * ov`. -/
theorem map_overlap_sub_sum (ov : ℚ) :
    ∀ l : List GlyphInstruction,
      (List.map (fun gi => (gi.glyph.advance : ℚ) - gi.overlap)
        (l.map (fun gi => { gi with overlap := gi.overlap - ov }))).sum
      = (List.map (fun gi => (gi.glyph.advance : ℚ) - gi.overlap) l).sum
          + l.length * ov := by
  intro l
  induction l with
  | nil => simp
  | cons b t ih =>
    simp only [List.map_cons, List.sum_cons, List.length_cons, ih]
    push_cast
    ring

/-- Helper: slack distribution raises the advance sum by
`(count - 1) * ov` where `count` is the number of instructions. -/
theorem distributeSlack_sumAdv (ov : ℚ) (a : GlyphInstruction) (l : List GlyphInstruction) :
    sumAdv (distributeSlack ov (a :: l)) = sumAdv (a :: l) + l.length * ov := by
  simp only [distributeSlack, sumAdv, List.map_cons, List.sum_cons]
  rw [map_overlap_sub_sum]
  ring

/-- C3: on the construction path, when the pre-adjustment slack is
non-negative and more than one instruction was materialized, the returned
instruction list satisfies the exact-fit property: the sum of
`glyph.advance - overlap` over all instructions equals `min_size`.  The
hypothesis `hmet` states that the external metrics provider reports for
each part the advance the recipe records (`full_advance`), which is what
ties the instructions' own `glyph.advance` fields to the internally
accumulated total. -/
theorem C3_exact_fit (env : FontEnv) (g : Glyph) (size : ℚ) (direction : Direction)
    (v : GlyphVariants) (c : ConstructableGlyph) (n : ℕ)
    (hv : lookupVariants env direction g.unicode = some v)
    (hfind : v.replacements.find? (fun r => decide (size ≤ (r.advance : ℚ))) = none)
    (hc : v.constructable = some c)
    (hsearch : repeatSearch env.minConnectorOverlap c.parts size = some n)
    (hmet : ∀ p ∈ c.parts, ((env.glyphMetrics p.unicode).advance : ℚ) = (p.full_advance : ℚ))
    (hslack : 0 ≤ size - (materialize env c.parts n).2.2)
    (hlen : 2 ≤ (materialize env c.parts n).1.length) :
    variant env g size direction
      = Except.ok (VariantGlyph.Constructable direction (slackAdjusted env c.parts size n))
    ∧ sumAdv (slackAdjusted env c.parts size n) = size := by
  constructor
  · simp only [variant, hv, hfind, hc, hsearch]
    rw [if_neg (not_lt.mpr hslack), if_neg (by omega)]
    rfl
  · have hmsum : sumAdv (materialize env c.parts n).1 = (materialize env c.parts n).2.2 :=
      materialize_sumAdv env c.parts n hmet
    obtain ⟨a, l, hal⟩ : ∃ a l, (materialize env c.parts n).1 = a :: l := by
      rcases hx : (materialize env c.parts n).1 with _ | ⟨a, l⟩
      · rw [hx] at hlen
        simp at hlen
      · exact ⟨a, l, rfl⟩
    have hlenl : ((materialize env c.parts n).1.length - 1 : ℕ) = l.length := by
      rw [hal, List.length_cons]
      omega
    have hlpos : 1 ≤ l.length := by
      rw [hal, List.length_cons] at hlen
      omega
    have hlne : (l.length : ℚ) ≠ 0 := Nat.cast_ne_zero.mpr (by omega)
    rw [slackAdjusted, hlenl, hal, distributeSlack_sumAdv]
    rw [hal] at hmsum
    rw [hmsum]
    have hcancel : (l.length : ℚ) * ((size - (materialize env c.parts n).2.2) / (l.length : ℚ))
        = size - (materialize env c.parts n).2.2 := by
      field_simp
    rw [hcancel]
    ring

/-- Recipe used for the C3 witness: required cap then one extender whose
connectors (50) exceed the overlap cap (20). -/
def c3Parts : List GlyphPart :=
  [{ unicode := 100, start_connector_length := 0, end_connector_length := 50,
     full_advance := 100, required := true },
   { unicode := 101, start_connector_length := 50, end_connector_length := 50,
     full_advance := 50, required := false }]

def c3Env : FontEnv where
  vertVariants := fun u =>
    if u = 1 then
      some { replacements := [],
             constructable := some { parts := c3Parts, italics_correction := 0 } }
    else none
  horzVariants := fun _ => none
  glyphMetrics := fun u =>
    if u = 100 then { unicode := 100, advance := 100 } else { unicode := u, advance := 50 }
  minConnectorOverlap := 20

theorem C3_exact_fit_witness :
    variant c3Env { unicode := 1, advance := 0 } 120 Direction.Vertical
      = Except.ok (VariantGlyph.Constructable Direction.Vertical
          (slackAdjusted c3Env c3Parts 120 1))
    ∧ sumAdv (slackAdjusted c3Env c3Parts 120 1) = 120 :=
  C3_exact_fit c3Env { unicode := 1, advance := 0 } 120 Direction.Vertical
    { replacements := [],
      constructable := some { parts := c3Parts, italics_correction := 0 } }
    { parts := c3Parts, italics_correction := 0 } 1
    rfl rfl rfl (by decide) (by decide)
    (by norm_num [materialize, materializePart, c3Parts, c3Env])
    (by decide)

/-! ### Materialization versus search advance -/

/-- Helper: materialization only appends to the instruction list. -/
theorem materializePart_extends (env : FontEnv) (p : GlyphPart) :
    ∀ (n : ℕ) (st : List GlyphInstruction × ℕ × ℚ),
      st.1 <+: (materializePart env p n st).1 := by
  intro n
  induction n with
  | zero => intro st; exact List.prefix_refl _
  | succ k ih =>
    intro st
    obtain ⟨instrs, prev, adv⟩ := st
    simp only [materializePart]
    exact List.IsPrefix.trans (List.prefix_append instrs _)
      (ih (instrs ++ [{ glyph := env.glyphMetrics p.unicode,
                        overlap := ((min prev p.start_connector_length : ℕ) : ℚ) }],
           p.end_connector_length,
           adv + (p.full_advance : ℚ) - ((min prev p.start_connector_length : ℕ) : ℚ)))

/-- Helper: the materialization fold only appends to the instruction
list. -/
theorem materialize_fold_extends (env : FontEnv) (count : ℕ) :
    ∀ (parts : List GlyphPart) (st : List GlyphInstruction × ℕ × ℚ),
      st.1 <+:
        ((parts.foldl
          (fun st p => materializePart env p (if p.required then 1 else count) st) st)).1 := by
  intro parts
  induction parts with
  | nil => intro st; exact List.prefix_refl _
  | cons p t ih =>
    intro t2
    simp only [List.foldl_cons]
    exact List.IsPrefix.trans (materializePart_extends env p _ t2) (ih _)

/-- Helper: running the search loop and the materialization loop of one
part side by side from states with equal previous-connector values, the
final connector values agree, the difference between the search advance
and the materialized advance never decreases (the search subtracts
`min cap overlap`, the materialization the full `overlap`), and the
difference is preserved exactly when every emitted overlap is at most the
cap: the forward direction because capping then subtracts the full
overlap, the converse because each step adds the non-negative penalty
`overlap - min(cap, overlap)`, which is zero only when the overlap is
within the cap. -/
theorem advance_mat_part (env : FontEnv) (cap : ℕ) (p : GlyphPart)
    (hp : p.start_connector_length ≤ p.full_advance) :
    ∀ (n : ℕ) (a prev : ℕ) (instrs : List GlyphInstruction) (q : ℚ),
      ((materializePart env p n (instrs, prev, q)).2.1
          = (advancePart cap p n (a, prev)).2)
      ∧ ((a : ℚ) - q ≤ ((advancePart cap p n (a, prev)).1 : ℚ)
            - (materializePart env p n (instrs, prev, q)).2.2)
      ∧ ((∀ gi ∈ (materializePart env p n (instrs, prev, q)).1,
            gi.overlap ≤ (cap : ℚ)) →
          ((advancePart cap p n (a, prev)).1 : ℚ)
              - (materializePart env p n (instrs, prev, q)).2.2 = (a : ℚ) - q)
      ∧ ((∀ gi ∈ instrs, gi.overlap ≤ (cap : ℚ)) →
          ((advancePart cap p n (a, prev)).1 : ℚ)
              - (materializePart env p n (instrs, prev, q)).2.2 = (a : ℚ) - q →
          ∀ gi ∈ (materializePart env p n (instrs, prev, q)).1,
            gi.overlap ≤ (cap : ℚ)) := by
  intro n
  induction n with
  | zero => intro a prev instrs q; exact ⟨rfl, le_refl _, fun _ => rfl, fun h _ => h⟩
  | succ k ih =>
    intro a prev instrs q
    simp only [advancePart, materializePart]
    set o : ℕ := min prev p.start_connector_length with ho
    have ho1 : o ≤ p.start_connector_length := by
      rw [ho]
      exact min_le_right _ _
    have ho2 : min cap o ≤ o := min_le_right _ _
    have hofa : min cap o ≤ p.full_advance := le_trans (le_trans ho2 ho1) hp
    have hcast : ((a + (p.full_advance - min cap o) : ℕ) : ℚ)
        = (a : ℚ) + (p.full_advance : ℚ) - ((min cap o : ℕ) : ℚ) := by
      push_cast [Nat.cast_sub hofa]
      ring
    obtain ⟨ih1, ih2, ih3, ih4⟩ := ih (a + (p.full_advance - min cap o))
      p.end_connector_length
      (instrs ++ [{ glyph := env.glyphMetrics p.unicode, overlap := (o : ℚ) }])
      (q + (p.full_advance : ℚ) - (o : ℚ))
    refine ⟨ih1, ?_, ?_, ?_⟩
    · refine le_trans ?_ ih2
      rw [hcast]
      have hole : ((min cap o : ℕ) : ℚ) ≤ ((o : ℕ) : ℚ) := by
        exact_mod_cast ho2
      linarith
    · intro hall
      have hgim : ({ glyph := env.glyphMetrics p.unicode, overlap := (o : ℚ) }
            : GlyphInstruction)
          ∈ (materializePart env p k
              (instrs ++ [{ glyph := env.glyphMetrics p.unicode, overlap := (o : ℚ) }],
                p.end_connector_length,
                q + (p.full_advance : ℚ) - (o : ℚ))).1 :=
        (materializePart_extends env p k _).subset (by simp)
      have h5 : (o : ℚ) ≤ (cap : ℚ) := hall _ hgim
      have hmin : min cap o = o := min_eq_right (by exact_mod_cast h5)
      rw [ih3 hall, hcast, hmin]
      ring
    · intro hinit heq
      have hole : ((min cap o : ℕ) : ℚ) ≤ ((o : ℕ) : ℚ) := by
        exact_mod_cast ho2
      have hd1 : (a : ℚ) - q
          ≤ ((a + (p.full_advance - min cap o) : ℕ) : ℚ)
            - (q + (p.full_advance : ℚ) - (o : ℚ)) := by
        rw [hcast]
        linarith
      have hd2 : ((a + (p.full_advance - min cap o) : ℕ) : ℚ)
          - (q + (p.full_advance : ℚ) - (o : ℚ)) = (a : ℚ) - q := by
        have hle := ih2
        rw [heq] at hle
        exact le_antisymm hle hd1
      have hoc : ((min cap o : ℕ) : ℚ) = ((o : ℕ) : ℚ) := by
        rw [hcast] at hd2
        linarith
      have hole2 : o ≤ cap := min_eq_right_iff.mp (by exact_mod_cast hoc)
      have hinit2 : ∀ gi ∈ (instrs
            ++ [{ glyph := env.glyphMetrics p.unicode, overlap := (o : ℚ) }]),
          gi.overlap ≤ (cap : ℚ) := by
        intro gi hgi
        rcases List.mem_append.mp hgi with hgl | hgr
        · exact hinit gi hgl
        · have hgi2 : gi = { glyph := env.glyphMetrics p.unicode, overlap := (o : ℚ) } := by
            simpa using hgr
          rw [hgi2]
          show (o : ℚ) ≤ (cap : ℚ)
          exact_mod_cast hole2
      exact ih4 hinit2 (heq.trans hd2.symm)

/-- Helper: the side-by-side relation extended over the whole parts
fold. -/
theorem advance_mat_fold (env : FontEnv) (cap : ℕ) (count : ℕ) :
    ∀ (parts : List GlyphPart),
      (∀ p ∈ parts, p.start_connector_length ≤ p.full_advance) →
      ∀ (a prev : ℕ) (instrs : List GlyphInstruction) (q : ℚ),
      (((parts.foldl
            (fun st p => materializePart env p (if p.required then 1 else count) st)
            (instrs, prev, q))).2.1
        = ((parts.foldl
            (fun st p => advancePart cap p (if p.required then 1 else count) st)
            (a, prev))).2)
      ∧ ((a : ℚ) - q
          ≤ (((parts.foldl
              (fun st p => advancePart cap p (if p.required then 1 else count) st)
              (a, prev))).1 : ℚ)
            - ((parts.foldl
              (fun st p => materializePart env p (if p.required then 1 else count) st)
              (instrs, prev, q))).2.2)
      ∧ ((∀ gi ∈ ((parts.foldl
              (fun st p => materializePart env p (if p.required then 1 else count) st)
              (instrs, prev, q))).1, gi.overlap ≤ (cap : ℚ)) →
          (((parts.foldl
              (fun st p => advancePart cap p (if p.required then 1 else count) st)
              (a, prev))).1 : ℚ)
            - ((parts.foldl
              (fun st p => materializePart env p (if p.required then 1 else count) st)
              (instrs, prev, q))).2.2
          = (a : ℚ) - q)
      ∧ ((∀ gi ∈ instrs, gi.overlap ≤ (cap : ℚ)) →
          (((parts.foldl
              (fun st p => advancePart cap p (if p.required then 1 else count) st)
              (a, prev))).1 : ℚ)
            - ((parts.foldl
              (fun st p => materializePart env p (if p.required then 1 else count) st)
              (instrs, prev, q))).2.2
          = (a : ℚ) - q →
          ∀ gi ∈ ((parts.foldl
              (fun st p => materializePart env p (if p.required then 1 else count) st)
              (instrs, prev, q))).1, gi.overlap ≤ (cap : ℚ)) := by
  intro parts
  induction parts with
  | nil => intro _ a prev instrs q; exact ⟨rfl, le_refl _, fun _ => rfl, fun h _ => h⟩
  | cons p t ih =>
    intro hWF a prev instrs q
    simp only [List.foldl_cons]
    obtain ⟨e1, e2, e3, e4⟩ := advance_mat_part env cap p
      (hWF p (List.mem_cons_self p t)) (if p.required then 1 else count) a prev instrs q
    have hsm : materializePart env p (if p.required then 1 else count) (instrs, prev, q)
        = ((materializePart env p (if p.required then 1 else count) (instrs, prev, q)).1,
           (advancePart cap p (if p.required then 1 else count) (a, prev)).2,
           (materializePart env p (if p.required then 1 else count) (instrs, prev, q)).2.2) := by
      rw [← e1]
    have hsa : advancePart cap p (if p.required then 1 else count) (a, prev)
        = ((advancePart cap p (if p.required then 1 else count) (a, prev)).1,
           (advancePart cap p (if p.required then 1 else count) (a, prev)).2) := by
      rw [Prod.mk.eta]
    rw [hsm, hsa]
    obtain ⟨f1, f2, f3, f4⟩ := ih (fun x hx => hWF x (List.mem_cons_of_mem p hx))
      (advancePart cap p (if p.required then 1 else count) (a, prev)).1
      (advancePart cap p (if p.required then 1 else count) (a, prev)).2
      (materializePart env p (if p.required then 1 else count) (instrs, prev, q)).1
      (materializePart env p (if p.required then 1 else count) (instrs, prev, q)).2.2
    refine ⟨f1, le_trans e2 f2, ?_, ?_⟩
    · intro hall
      have hall1 : ∀ gi ∈ (materializePart env p (if p.required then 1 else count)
          (instrs, prev, q)).1, gi.overlap ≤ (cap : ℚ) := by
        intro gi hgi
        refine hall gi ?_
        exact (materialize_fold_extends env count t _).subset hgi
      rw [f3 hall, e3 hall1]
    · intro hinit heq
      have hd : ((advancePart cap p (if p.required then 1 else count) (a, prev)).1 : ℚ)
          - (materializePart env p (if p.required then 1 else count) (instrs, prev, q)).2.2
          = (a : ℚ) - q := by
        have hf2 := f2
        rw [heq] at hf2
        exact le_antisymm hf2 e2
      exact f4 (e4 hinit hd) (heq.trans hd.symm)

/-- Recipe exhibiting the discrepancy: the extender's connectors (50)
exceed the overlap cap (20). -/
def c4Parts : List GlyphPart :=
  [{ unicode := 200, start_connector_length := 0, end_connector_length := 50,
     full_advance := 100, required := true },
   { unicode := 201, start_connector_length := 50, end_connector_length := 50,
     full_advance := 50, required := false }]

def c4Env : FontEnv where
  vertVariants := fun _ => none
  horzVariants := fun _ => none
  glyphMetrics := fun u => { unicode := u, advance := 0 }
  minConnectorOverlap := 20

/-- C4 fails as stated: with one repeat of the extender, materialization
records the overlap 50 = min(previous end connector, start connector) for
the second instance — not the cap-limited value the search subtracts —
and consequently the advance accumulated by materialization (100) differs
from the assembled advance the search computed (130). -/
theorem C4_counterexample :
    (materialize c4Env c4Parts 1).1.map (fun gi => gi.overlap) = [0, 50]
    ∧ (materialize c4Env c4Parts 1).2.2
        ≠ (advance_with_glyphs c4Env.minConnectorOverlap c4Parts 1 : ℚ) := by
  constructor
  · norm_num [materialize, materializePart, c4Parts, c4Env]
  · norm_num [materialize, materializePart, advance_with_glyphs, advancePart, c4Parts, c4Env]

/-- C4 (amended): the overlap materialization records for an instance is
`min(previous end connector, start connector)` with no cap, while the
search subtracts `min(cap, that overlap)`; hence the total advance
accumulated by materialization is at most the assembled advance computed
by the search for the same repeat count, with equality precisely (in
both directions) on recipes all of whose materialized overlaps stay
within the cap: the advance gap is a sum of per-instance penalties
`overlap - min(cap, overlap)`, each non-negative and zero exactly when
that overlap is within the cap.  The
well-formedness hypothesis keeps the source's `u32` subtraction from
underflowing (connectors never exceed the advance of their part). -/
theorem C4_advance_relation (env : FontEnv) (parts : List GlyphPart) (r : ℕ)
    (hWF : ∀ p ∈ parts, p.start_connector_length ≤ p.full_advance) :
    (materialize env parts r).2.2
      ≤ (advance_with_glyphs env.minConnectorOverlap parts r : ℚ)
    ∧ ((∀ gi ∈ (materialize env parts r).1,
          gi.overlap ≤ (env.minConnectorOverlap : ℚ)) ↔
        (materialize env parts r).2.2
          = (advance_with_glyphs env.minConnectorOverlap parts r : ℚ)) := by
  obtain ⟨h1, h2, h3, h4⟩ :=
    advance_mat_fold env env.minConnectorOverlap r parts hWF 0 0 [] 0
  constructor
  · have h2q := h2
    simp only [Nat.cast_zero, sub_zero] at h2q
    simp only [materialize, advance_with_glyphs]
    linarith
  · constructor
    · intro hall
      have hall2 : ∀ gi ∈ ((parts.foldl
          (fun st p => materializePart env p (if p.required then 1 else r) st)
          ([], 0, 0))).1, gi.overlap ≤ (env.minConnectorOverlap : ℚ) := hall
      have h3q := h3 hall2
      simp only [Nat.cast_zero, sub_zero] at h3q
      simp only [materialize, advance_with_glyphs]
      linarith
    · intro heq
      have heq2 : (((parts.foldl
          (fun st p =>
            advancePart env.minConnectorOverlap p (if p.required then 1 else r) st)
          (0, 0))).1 : ℚ)
          - ((parts.foldl
          (fun st p => materializePart env p (if p.required then 1 else r) st)
          ([], 0, 0))).2.2 = ((0 : ℕ) : ℚ) - (0 : ℚ) := by
        simp only [materialize, advance_with_glyphs] at heq
        simp only [Nat.cast_zero, sub_zero]
        linarith
      exact h4 (by simp) heq2

/-- Recipe whose connectors (10) stay within the cap (20): the two
advances agree. -/
def c4wParts : List GlyphPart :=
  [{ unicode := 200, start_connector_length := 0, end_connector_length := 10,
     full_advance := 100, required := true },
   { unicode := 201, start_connector_length := 10, end_connector_length := 10,
     full_advance := 50, required := false }]

def c4wEnv : FontEnv where
  vertVariants := fun _ => none
  horzVariants := fun _ => none
  glyphMetrics := fun u => { unicode := u, advance := 0 }
  minConnectorOverlap := 20

theorem C4_advance_relation_witness :
    (materialize c4wEnv c4wParts 1).2.2
      = (advance_with_glyphs c4wEnv.minConnectorOverlap c4wParts 1 : ℚ) :=
  (C4_advance_relation c4wEnv c4wParts 1 (by decide)).2.mp (by decide)
